import Mathlib

/-!
# dtogen: extraction and transformation pipeline

A shallow embedding of `internal/parser/parser.go` and
`internal/generator/generator.go`, and the properties of the field selection,
renaming, import merge, struct extraction and rendering result that hold of it.

Go values are represented as follows.

* `string` is `String`; `[]T` is `List T` (a nil slice is the empty list).
* `map[string]T` is `GoMap T`, the list of the entries of the map; a lookup
  takes the first entry with the key, `len` counts the distinct keys.
* `(T, error)` is `Except String T`, except for `Generate`, which can return
  bytes together with an error and so returns a pair of options.
* A `range` over a map yields the keys in an order that Go leaves open; the
  order is a parameter `seed` of `Parse`.
* The calls into the Go library (`packages.Load`, `os.ReadFile`, the template
  engine, `format.Source`) are inputs: `Parse` takes the loaded packages, and
  `Generate` an `Env` with the other calls.
-/

namespace Dtogen

/-! ## Go maps with string keys -/

/-- A Go `map[string]β`, as the list of its entries. -/
abbrev GoMap (β : Type) := List (String × β)

namespace GoMap

/-- The comma-ok lookup `v, ok := m[k]`: `some v` when `k` is a key of `m`. -/
def get? {β : Type} : GoMap β → String → Option β
  | [], _ => none
  | (k', v) :: rest, k => if k' = k then some v else get? rest k

/-- The keys of the map, each once. -/
def keys {β : Type} (m : GoMap β) : List String :=
  (m.map Prod.fst).dedup

/-- The builtin `len(m)`: the number of keys. -/
def len {β : Type} (m : GoMap β) : Nat :=
  (keys m).length

/-- The plain index expression `m[k]` of a `map[string]bool`: the stored
value, and the zero value `false` when `k` is not a key. -/
def index (m : GoMap Bool) (k : String) : Bool :=
  (get? m k).getD false

/-- The assignment `m[k] = v`. -/
def set {β : Type} : GoMap β → String → β → GoMap β
  | [], k, v => [(k, v)]
  | (k', v') :: rest, k, v =>
    if k' = k then (k, v) :: rest else (k', v') :: set rest k v

/-- The builtin `delete(m, k)`. -/
def delete {β : Type} : GoMap β → String → GoMap β
  | [], _ => []
  | (k', v) :: rest, k =>
    if k' = k then delete rest k else (k', v) :: delete rest k

end GoMap

/-! ## Data model -/

/-- The type `parser.FieldInfo`. -/
structure FieldInfo where
  Name : String
  Type_ : String
  Tags : String
  deriving DecidableEq, Repr

/-- The type `parser.StructInfo`. -/
structure StructInfo where
  PackageName : String
  Name : String
  Dir : String
  Imports : List String
  Fields : List FieldInfo
  deriving DecidableEq, Repr

/-- Modelled from the spec: the type `types.Filter` of the package
`dtogen/internal/types`, which is not among the sources; the spec describes a
filter as a condition/action text pair (`when` and `do` in the sample
document). -/
structure Filter where
  When : String
  Do : String
  deriving DecidableEq, Repr

/-- The type `generator.Config`. -/
structure Config where
  PackageName : String
  StructName : String
  DTOName : String
  Excludes : GoMap Bool
  Includes : GoMap Bool
  Renames : GoMap String
  Filters : List Filter
  Imports : List String
  AddFields : List String
  ExcludeImports : List String
  TemplatePath : String
  deriving DecidableEq, Repr

/-- The type `generator.FieldData`. -/
structure FieldData where
  Name : String
  SourceName : String
  Type_ : String
  Tags : String
  deriving DecidableEq, Repr

/-- The type `generator.templateData`. -/
structure templateData where
  PackageName : String
  StructName : String
  DTOName : String
  Imports : List String
  Fields : List FieldData
  AddFields : List String
  Filters : List Filter
  deriving DecidableEq, Repr

/-! ## Generate: the template context (generator.go, lines 48 to 97) -/

/-- The test that makes the field loop `continue` (lines 53 to 60). -/
def skipField (cfg : Config) (f : FieldInfo) : Bool :=
  if 0 < cfg.Includes.len then
    !cfg.Includes.index f.Name
  else
    cfg.Excludes.index f.Name

/-- The name given to the DTO field (lines 62 to 65). -/
def dtoFieldName (cfg : Config) (f : FieldInfo) : String :=
  match cfg.Renames.get? f.Name with
  | some newName => newName
  | none => f.Name

/-- One iteration of the field loop (lines 51 to 73). -/
def fieldStep (cfg : Config) (fields : List FieldData) (f : FieldInfo) : List FieldData :=
  if skipField cfg f then fields
  else fields ++ [{ Name := dtoFieldName cfg f, SourceName := f.Name, Type_ := f.Type_, Tags := f.Tags }]

/-- The field loop of `Generate` (lines 50 to 73). -/
def genFields (info : StructInfo) (cfg : Config) : List FieldData :=
  info.Fields.foldl (fieldStep cfg) []

/-- The set `excluded_imports` built at lines 75 to 78. -/
def excludedImports (cfg : Config) : GoMap Unit :=
  cfg.ExcludeImports.foldl (fun m item => m.set item ()) []

/-- One iteration of the import loop (lines 81 to 85). -/
def importStep (excluded : GoMap Unit) (imports : List String) (infoImport : String) : List String :=
  match excluded.get? infoImport with
  | some _ => imports
  | none => imports ++ [infoImport]

/-- The import loop of `Generate` (lines 80 to 85); it starts from the slice
`cfg.Imports[0:]`, which has the elements of `cfg.Imports`. -/
def genImports (info : StructInfo) (cfg : Config) : List String :=
  info.Imports.foldl (importStep (excludedImports cfg)) cfg.Imports

/-- The value `data` that `Generate` hands to the template (lines 89 to 97). -/
def genData (info : StructInfo) (cfg : Config) : templateData :=
  { PackageName := cfg.PackageName
    StructName := cfg.StructName
    DTOName := cfg.DTOName
    Imports := genImports info cfg
    Fields := genFields info cfg
    AddFields := cfg.AddFields
    Filters := cfg.Filters }

/-! ## Generate: rendering (generator.go, lines 99 to 133) -/

/-- The bytes of a rendered file. -/
abbrev Bytes := List UInt8

/-- A parsed `*template.Template`, as what `tmpl.Execute(&buf, data)` does with
it: the error, or the bytes written to the buffer. -/
structure Template where
  Execute : templateData → Except String Bytes

/-- The library calls of `Generate`: `os.ReadFile`, `template.New("custom").Parse`,
`template.ParseFS(defaultTemplateFS, "templates/dto.tmpl")` and `format.Source`. -/
structure Env where
  ReadFile : String → Except String String
  ParseCustom : String → Except String Template
  ParseDefault : Except String Template
  Source : Bytes → Except String Bytes

/-- The result `([]byte, error)` of `Generate`: `none` is `nil`. -/
abbrev GenResult := Option Bytes × Option String

/-- Execution and formatting (lines 120 to 132). -/
def render (env : Env) (tmpl : Template) (data : templateData) : GenResult :=
  match tmpl.Execute data with
  | .error err => (none, some ("failed to execute template: " ++ err))
  | .ok buf =>
    match env.Source buf with
    | .error err => (some buf, some ("failed to format generated code: " ++ err))
    | .ok formatted => (some formatted, none)

/-- The function `Generate` of generator.go. -/
def Generate (env : Env) (info : StructInfo) (cfg : Config) : GenResult :=
  let data := genData info cfg
  if cfg.TemplatePath ≠ "" then
    match env.ReadFile cfg.TemplatePath with
    | .error err => (none, some ("failed to read template file: " ++ err))
    | .ok content =>
      match env.ParseCustom content with
      | .error err => (none, some ("failed to parse custom template: " ++ err))
      | .ok tmpl => render env tmpl data
  else
    match env.ParseDefault with
    | .error err => (none, some ("failed to parse default template: " ++ err))
    | .ok tmpl => render env tmpl data

/-! ## The loaded packages (go/ast, go/types, go/packages) -/

/-- A `types.Type`. `Named pkg name targs` is a `*types.Named` whose object is
declared in the package of path `pkg` (`none` when `Obj().Pkg()` is nil, as for
the predeclared `error`) with type arguments `targs`. `Other` stands for the
types that `collectImports` has no case for (struct, function, interface and
tuple types, type parameters, and a nil type). -/
inductive GoType where
  | Basic (name : String)
  | Named (pkg : Option String) (name : String) (targs : List GoType)
  | Pointer (elem : GoType)
  | Slice (elem : GoType)
  | Array (len : Nat) (elem : GoType)
  | Map (key : GoType) (elem : GoType)
  | Chan (elem : GoType)
  | Other

/-- An `ast.Expr` in type position. `ArrayType` carries the text of its length
(`none` for a slice type); `Other` carries the text that `types.ExprString`
prints for an expression of another form. -/
inductive Expr where
  | Ident (Name : String)
  | SelectorExpr (X : Expr) (Sel : String)
  | StarExpr (X : Expr)
  | ArrayType (Len : Option String) (Elt : Expr)
  | MapType (Key : Expr) (Value : Expr)
  | IndexExpr (X : Expr) (Index : Expr)
  | Other (text : String)

/-- The library function `types.ExprString`. -/
def ExprString : Expr → String
  | .Ident n => n
  | .SelectorExpr x sel => ExprString x ++ "." ++ sel
  | .StarExpr x => "*" ++ ExprString x
  | .ArrayType len elt => "[" ++ len.getD "" ++ "]" ++ ExprString elt
  | .MapType k v => "map[" ++ ExprString k ++ "]" ++ ExprString v
  | .IndexExpr x i => ExprString x ++ "[" ++ ExprString i ++ "]"
  | .Other text => text

/-- An `*ast.Field` of a struct type: `Names` are the `Name` of its identifiers,
`typ` is `pkg.TypesInfo.TypeOf(field.Type)`, and `Tag` is `field.Tag.Value`, or
`none` when `field.Tag` is nil. The parser gives every struct field a `Type`. -/
structure Field where
  Names : List String
  Type_ : Expr
  typ : GoType
  Tag : Option String

/-- The `Type` of an `*ast.TypeSpec`: a struct type or another expression. -/
inductive SpecType where
  | StructType (Fields : List Field)
  | NotStruct

/-- An `ast.Spec`: a type spec, or an import or value spec. -/
inductive Spec where
  | TypeSpec (Name : String) (Type_ : SpecType)
  | Other

/-- An `ast.Decl`: a `*ast.GenDecl` with the text of its token, or another
declaration. -/
inductive Decl where
  | GenDecl (Tok : String) (Specs : List Spec)
  | Other

/-- An `*ast.File`; `Dir` is `filepath.Dir` of the file name of its positions. -/
structure File where
  Dir : String
  Decls : List Decl

/-- A `*packages.Package`; `Errors` is the number of errors that
`packages.PrintErrors` prints for it. -/
structure Package where
  Name : String
  PkgPath : String
  Errors : Nat
  Syntax : List File

/-- The library function `packages.PrintErrors`. -/
def PrintErrors (pkgs : List Package) : Nat :=
  (pkgs.map Package.Errors).sum

/-! ## Parse (parser.go) -/

/-- The order in which a `range` over a map yields the keys. Go leaves the order
unspecified, and it can change from one iteration to the next: `seed` stands
for the choice of the runtime, and picks one of the orderings of the keys. -/
def rangeKeys {β : Type} (seed : Nat) (m : GoMap β) : List String :=
  let orders := List.permutations' m.keys
  orders.getD (seed % orders.length) m.keys

/-- The library function `strings.Split` for a one-character separator, on the
characters of the string. For the separator `.`, a single byte that is part of
no longer encoding, splitting the characters is splitting the bytes. -/
def splitChars (sep : Char) : List Char → List (List Char)
  | [] => [[]]
  | c :: cs =>
    if c = sep then [] :: splitChars sep cs
    else
      match splitChars sep cs with
      | [] => [[c]]
      | p :: ps => (c :: p) :: ps

/-- The library function `strings.Split` for a one-character separator. -/
def Split (s : String) (sep : Char) : List String :=
  (splitChars sep s.toList).map String.mk

mutual
/-- The function `collectImports` of parser.go; the map is passed and returned. -/
def collectImports : GoType → GoMap Bool → GoMap Bool
  | .Named pkg _ targs, imports =>
    let imports1 :=
      match pkg with
      | some path => imports.set path true
      | none => imports
    collectImportsArgs targs imports1
  | .Pointer elem, imports => collectImports elem imports
  | .Slice elem, imports => collectImports elem imports
  | .Array _ elem, imports => collectImports elem imports
  | .Map key elem, imports => collectImports elem (collectImports key imports)
  | .Chan elem, imports => collectImports elem imports
  | .Basic _, imports => imports
  | .Other, imports => imports
/-- The loop of `collectImports` over the type arguments (lines 136 to 138). -/
def collectImportsArgs : List GoType → GoMap Bool → GoMap Bool
  | [], imports => imports
  | t :: ts, imports => collectImportsArgs ts (collectImports t imports)
end

/-- The function `getTag` of parser.go. -/
def getTag (tag : Option String) : String :=
  match tag with
  | none => ""
  | some value => value

/-- The state of the member loop of `Parse`: `info.Fields` and `importMap`. -/
structure LoopState where
  Fields : List FieldInfo
  importMap : GoMap Bool

/-- One iteration of the member loop of `Parse` (lines 81 to 113). -/
def memberStep (st : LoopState) (field : Field) : LoopState :=
  let importMap := collectImports field.typ st.importMap
  if field.Names.length = 0 then
    let typeName := ExprString field.Type_
    let parts := Split typeName '.'
    let fieldName := parts.getLastD ""
    { Fields := st.Fields ++ [{ Name := fieldName, Type_ := typeName, Tags := getTag field.Tag }]
      importMap := importMap }
  else
    { Fields := field.Names.foldl
        (fun fs name => fs ++ [{ Name := name, Type_ := ExprString field.Type_, Tags := getTag field.Tag }])
        st.Fields
      importMap := importMap }

/-- The body of `Parse` for the struct type found (lines 67 to 119). -/
def parseStruct (seed : Nat) (pkg : Package) (file : File) (structName : String)
    (fields : List Field) : StructInfo :=
  let st := fields.foldl memberStep { Fields := [], importMap := [] }
  { PackageName := pkg.Name
    Name := structName
    Dir := file.Dir
    Fields := st.Fields
    Imports := (rangeKeys seed st.importMap).foldl (fun imports imp => imports ++ [imp]) [] }

/-- The loop over the specs of a declaration (lines 52 to 120): `none` when the
loop ends without a `return`. -/
def parseSpecs (seed : Nat) (pkg : Package) (file : File) (structName : String) :
    List Spec → Option (Except String StructInfo)
  | [] => none
  | .Other :: rest => parseSpecs seed pkg file structName rest
  | .TypeSpec name ty :: rest =>
    if name ≠ structName then parseSpecs seed pkg file structName rest
    else
      match ty with
      | .NotStruct => some (.error (structName ++ " is not a struct"))
      | .StructType fields => some (.ok (parseStruct seed pkg file structName fields))

/-- The loop over the declarations of a file (lines 46 to 121). -/
def parseDecls (seed : Nat) (pkg : Package) (file : File) (structName : String) :
    List Decl → Option (Except String StructInfo)
  | [] => none
  | .Other :: rest => parseDecls seed pkg file structName rest
  | .GenDecl tok specs :: rest =>
    if tok ≠ "type" then parseDecls seed pkg file structName rest
    else
      match parseSpecs seed pkg file structName specs with
      | some r => some r
      | none => parseDecls seed pkg file structName rest

/-- The loop over the files of a package (lines 45 to 122). -/
def parseFiles (seed : Nat) (pkg : Package) (structName : String) :
    List File → Option (Except String StructInfo)
  | [] => none
  | file :: rest =>
    match parseDecls seed pkg file structName file.Decls with
    | some r => some r
    | none => parseFiles seed pkg structName rest

/-- The loop over the packages (lines 44 to 123). -/
def parsePkgs (seed : Nat) (structName : String) :
    List Package → Option (Except String StructInfo)
  | [] => none
  | pkg :: rest =>
    match parseFiles seed pkg structName pkg.Syntax with
    | some r => some r
    | none => parsePkgs seed structName rest

/-- The function `Parse` of parser.go. `load` is the result of
`packages.Load(cfg, pattern)`, and `seed` the iteration order of the runtime
for the `range` over `importMap`. -/
def Parse (seed : Nat) (load : Except String (List Package)) (pattern : String)
    (structName : String) : Except String StructInfo :=
  match load with
  | .error err => .error ("failed to load packages: " ++ err)
  | .ok pkgs =>
    if PrintErrors pkgs > 0 then .error "packages contained errors"
    else
      match parsePkgs seed structName pkgs with
      | some r => r
      | none => .error ("struct " ++ structName ++ " not found in pattern " ++ pattern)

/-! ## The pipeline of the command (main.go) -/

/-- The steps of `runGenerator` between the source and the template context
(main.go, lines 206 to 215): `Parse`, then the package name of the result is
put in the configuration, then `Generate` builds its context from both. -/
def runGeneratorData (seed : Nat) (load : Except String (List Package)) (src : String)
    (cfg : Config) : Except String templateData :=
  match Parse seed load src cfg.StructName with
  | .error err => .error ("parsing source: " ++ err)
  | .ok info => .ok (genData info { cfg with PackageName := info.PackageName })

/-! ## Notions of the specification -/

/-- The template that `Generate` executes (the custom one when a path is
configured, the bundled one otherwise), or the error of reading or parsing it. -/
def templateOf (env : Env) (cfg : Config) : Except String Template :=
  if cfg.TemplatePath ≠ "" then
    match env.ReadFile cfg.TemplatePath with
    | .error err => .error err
    | .ok content => env.ParseCustom content
  else env.ParseDefault

/-- A type spec that `Parse` visits: its package, its file, its name, its type. -/
abbrev SpecEntry := Package × File × String × SpecType

/-- The type spec of a spec of a `type` declaration, if it is one. -/
def specEntries (pkg : Package) (file : File) : Spec → List SpecEntry
  | .TypeSpec name ty => [(pkg, file, name, ty)]
  | .Other => []

/-- The type specs of a declaration: those of a `type` declaration. -/
def declEntries (pkg : Package) (file : File) : Decl → List SpecEntry
  | .GenDecl tok specs => if tok = "type" then specs.flatMap (specEntries pkg file) else []
  | .Other => []

/-- The type specs of a file, in order. -/
def fileEntries (pkg : Package) (file : File) : List SpecEntry :=
  file.Decls.flatMap (declEntries pkg file)

/-- The type specs of a package, in the order of its files. -/
def pkgEntries (pkg : Package) : List SpecEntry :=
  pkg.Syntax.flatMap (fileEntries pkg)

/-- The type specs that `Parse` visits, in the order of its loops: packages,
their files, the `type` declarations of a file, their type specs. -/
def typeSpecs (pkgs : List Package) : List SpecEntry :=
  pkgs.flatMap pkgEntries

/-- The result for a type spec of the requested name: an error for a type that
is not a struct type, and the description built by `parseStruct` otherwise. -/
def resultAt (seed : Nat) (structName : String) (x : SpecEntry) : Except String StructInfo :=
  match x.2.2.2 with
  | .NotStruct => .error (structName ++ " is not a struct")
  | .StructType fields => .ok (parseStruct seed x.1 x.2.1 structName fields)

/-- The first type spec of the given name among those that `Parse` visits. -/
def firstTypeSpec (pkgs : List Package) (structName : String) : Option SpecEntry :=
  (typeSpecs pkgs).find? (fun x => decide (x.2.2.1 = structName))

/-- The text of `s` after its last `sep`, all of `s` when it has none. -/
def afterLast (sep : Char) (s : String) : String :=
  String.mk ((splitChars sep s.toList).getLastD [])

/-- The field descriptions that a struct member stands for: one for each of its
names, and for a member without names one under the last segment of its
written type. -/
def memberFields (field : Field) : List FieldInfo :=
  match field.Names with
  | [] => [{ Name := afterLast '.' (ExprString field.Type_), Type_ := ExprString field.Type_,
             Tags := getTag field.Tag }]
  | names => names.map fun name =>
      { Name := name, Type_ := ExprString field.Type_, Tags := getTag field.Tag }

mutual
/-- The named types reached from a type by unwrapping pointer, slice, array,
map (key and value) and channel types and the type arguments of named types:
each with the path of its declaring package (`none` when it has none). -/
def reachableNamed : GoType → List (Option String × String)
  | .Named pkg name targs => (pkg, name) :: reachableNamedArgs targs
  | .Pointer elem => reachableNamed elem
  | .Slice elem => reachableNamed elem
  | .Array _ elem => reachableNamed elem
  | .Map key elem => reachableNamed key ++ reachableNamed elem
  | .Chan elem => reachableNamed elem
  | .Basic _ => []
  | .Other => []
/-- The named types reached from a list of type arguments. -/
def reachableNamedArgs : List GoType → List (Option String × String)
  | [] => []
  | t :: ts => reachableNamed t ++ reachableNamedArgs ts
end

/-! ## The configuration built by the command (main.go) -/

/-- The loops of `runConfig` that make `excludeMap` and `includeMap` from the
lists of the document (main.go, lines 143 to 151). -/
def nameSet (names : List String) : GoMap Bool :=
  names.foldl (fun m f => m.set f true) []

/-! ## Concrete inputs -/

/-- A configuration with nothing set. -/
def emptyConfig : Config :=
  { PackageName := "", StructName := "", DTOName := "", Excludes := [], Includes := [],
    Renames := [], Filters := [], Imports := [], AddFields := [], ExcludeImports := [],
    TemplatePath := "" }

/-- A struct description with the given fields and discovered imports. -/
def infoOf (fields : List FieldInfo) (imports : List String) : StructInfo :=
  { PackageName := "models", Name := "User", Dir := "models", Imports := imports, Fields := fields }

/-- A field of type `string` without a tag. -/
def strField (name : String) : FieldInfo :=
  { Name := name, Type_ := "string", Tags := "" }

/-- A loaded package of one file that declares one struct type. -/
def structPkg (path name structName : String) (fields : List Field) : Package :=
  { Name := name, PkgPath := path, Errors := 0,
    Syntax := [{ Dir := name,
                 Decls := [.GenDecl "type" [.TypeSpec structName (.StructType fields)]] }] }

/-- A member with one name and a predeclared type. -/
def basicField (name typeName : String) (tag : Option String) : Field :=
  { Names := [name], Type_ := .Ident typeName, typ := .Basic typeName, Tag := tag }

/-- The package of `testdata/model.go`, with its struct `User`. -/
def testdataPkg : Package :=
  structPkg "dtogen/testdata" "testdata" "User"
    [basicField "ID" "int" (some "`json:\"id\"`"),
     basicField "Username" "string" (some "`json:\"username\"`"),
     basicField "Email" "string" none,
     basicField "IsActive" "bool" none,
     basicField "CreatedAt" "string" none]

/-- The embedded member `pkg.Base`, of a type of the package `example.com/pkg`. -/
def embeddedQualified : Field :=
  { Names := [], Type_ := .SelectorExpr (.Ident "pkg") "Base",
    typ := .Named (some "example.com/pkg") "Base" [], Tag := none }

/-- The embedded member `*Base`, a pointer to a type of the package itself. -/
def embeddedPointer : Field :=
  { Names := [], Type_ := .StarExpr (.Ident "Base"),
    typ := .Pointer (.Named (some "example.com/app") "Base" []), Tag := none }

/-- A member with one name whose type is the named type `pkg.name`, declared
in the package of path `path`. -/
def namedField (fieldName pkg name path : String) : Field :=
  { Names := [fieldName], Type_ := .SelectorExpr (.Ident pkg) name,
    typ := .Named (some path) name [], Tag := none }

/-- The package of `type User struct { ID int; Username string; Password secret.Hash }`. -/
def secretUserPkg : Package :=
  structPkg "example.com/app" "app" "User"
    [basicField "ID" "int" none, basicField "Username" "string" none,
     namedField "Password" "secret" "Hash" "example.com/secret"]

/-- The package of `type User struct { Addr Address }`, where `Address` is a
type of the same package. -/
def localTypePkg : Package :=
  structPkg "example.com/app" "app" "User"
    [{ Names := ["Addr"], Type_ := .Ident "Address",
       typ := .Named (some "example.com/app") "Address" [], Tag := none }]

/-- The package of `type Event struct { At time.Time; Link url.URL; Err error }`. -/
def eventPkg : Package :=
  structPkg "example.com/app" "app" "Event"
    [namedField "At" "time" "Time" "time", namedField "Link" "url" "URL" "net/url",
     { Names := ["Err"], Type_ := .Ident "error", typ := .Named none "error" [], Tag := none }]

/-- A template that renders every context as the one line `x`, which is not
a Go source file. -/
def lineTemplate : Template :=
  { Execute := fun _ => .ok [120, 10] }

/-- An environment whose bundled template is `lineTemplate`, without custom
templates, and whose formatter rejects every text that does not start with `p`. -/
def lineEnv : Env :=
  { ReadFile := fun _ => .error "no such file"
    ParseCustom := fun _ => .error "unexpected content"
    ParseDefault := .ok lineTemplate
    Source := fun src =>
      match src with
      | 112 :: _ => .ok src
      | _ => .error "expected package clause" }

end Dtogen

/-! # Properties -/

namespace Dtogen

/-! ## Go maps -/

theorem GoMap.len_pos_iff {β : Type} (m : GoMap β) : 0 < GoMap.len m ↔ m ≠ [] := by
  cases m with
  | nil => simp [GoMap.len, GoMap.keys]
  | cons e rest =>
    have h : e.1 ∈ (GoMap.keys (e :: rest)) := by
      simp [GoMap.keys]
    simpa [GoMap.len] using List.length_pos_of_mem h

theorem GoMap.get?_set {β : Type} (m : GoMap β) (k : String) (v : β) (k' : String) :
    GoMap.get? (GoMap.set m k v) k' = if k = k' then some v else GoMap.get? m k' := by
  induction m with
  | nil => simp [GoMap.set, GoMap.get?]
  | cons e rest ih =>
    obtain ⟨k0, v0⟩ := e
    simp only [GoMap.set, GoMap.get?]
    split_ifs <;> simp_all [GoMap.get?]

theorem GoMap.get?_isSome_iff {β : Type} (m : GoMap β) (k : String) :
    (GoMap.get? m k).isSome ↔ k ∈ GoMap.keys m := by
  induction m with
  | nil => simp [GoMap.get?, GoMap.keys]
  | cons e rest ih =>
    obtain ⟨k0, v0⟩ := e
    by_cases h0 : k0 = k
    · subst h0
      simp [GoMap.get?, GoMap.keys]
    · have h1 : ¬ k = k0 := fun h => h0 h.symm
      simp only [GoMap.keys, List.mem_dedup] at ih
      simp [GoMap.get?, GoMap.keys, h0, h1, ih]

theorem GoMap.get?_delete {β : Type} (m : GoMap β) (k k' : String) :
    GoMap.get? (GoMap.delete m k) k' = if k' = k then none else GoMap.get? m k' := by
  induction m with
  | nil => simp [GoMap.delete, GoMap.get?]
  | cons e rest ih =>
    obtain ⟨k0, v0⟩ := e
    simp only [GoMap.delete, GoMap.get?]
    split_ifs <;> simp_all [GoMap.get?]

theorem GoMap.keys_nodup {β : Type} (m : GoMap β) : (GoMap.keys m).Nodup :=
  List.nodup_dedup _

theorem GoMap.get?_foldl_set {β : Type} (xs : List String) (v : β) (m : GoMap β) (k : String) :
    GoMap.get? (xs.foldl (fun m x => GoMap.set m x v) m) k
      = if k ∈ xs then some v else GoMap.get? m k := by
  induction xs generalizing m with
  | nil => simp
  | cons x rest ih =>
    simp only [List.foldl_cons, ih, GoMap.get?_set, List.mem_cons]
    split_ifs <;> simp_all

theorem nameSet_index (names : List String) (k : String) :
    GoMap.index (nameSet names) k = decide (k ∈ names) := by
  simp only [GoMap.index, nameSet, GoMap.get?_foldl_set]
  split_ifs with h <;> simp [GoMap.get?, h]

theorem nameSet_len_pos (names : List String) :
    0 < GoMap.len (nameSet names) ↔ names ≠ [] := by
  rw [GoMap.len_pos_iff]
  cases names with
  | nil => simp [nameSet]
  | cons x rest =>
    have h : (GoMap.get? (nameSet (x :: rest)) x).isSome := by
      simp only [nameSet, GoMap.get?_foldl_set]
      simp
    constructor
    · intro _; simp
    · intro _ h0
      rw [h0] at h
      simp [GoMap.get?] at h

/-! ## Field selection and renaming -/

/-- The record that the field loop appends for a kept field. -/
theorem foldl_fieldStep (cfg : Config) (fs : List FieldInfo) (acc : List FieldData) :
    fs.foldl (fieldStep cfg) acc
      = acc ++ (fs.filter (fun f => !skipField cfg f)).map
          (fun f => { Name := dtoFieldName cfg f, SourceName := f.Name,
                      Type_ := f.Type_, Tags := f.Tags }) := by
  induction fs generalizing acc with
  | nil => simp
  | cons f rest ih =>
    simp only [List.foldl_cons, ih, fieldStep]
    by_cases h : skipField cfg f = true
    · simp [h]
    · simp [h]

/-- C1. The fields that `Generate` passes to the template are, by `SourceName`,
the fields of the struct filtered in declaration order: with a non-empty
`Includes` a field is kept iff `Includes` holds its name, otherwise iff
`Excludes` does not hold it; with a non-empty `Includes` the value of
`Excludes` does not change the fields; and for the sets that the command
builds from lists of names, holding a name is membership in the list. -/
theorem generate_selects_fields (info : StructInfo) (cfg : Config) :
    ((genData info cfg).Fields.map FieldData.SourceName
      = (info.Fields.filter (fun f =>
          if 0 < GoMap.len cfg.Includes then GoMap.index cfg.Includes f.Name
          else !GoMap.index cfg.Excludes f.Name)).map FieldInfo.Name)
    ∧ (∀ excludes : GoMap Bool, 0 < GoMap.len cfg.Includes →
        (genData info { cfg with Excludes := excludes }).Fields = (genData info cfg).Fields)
    ∧ (∀ includes excludes : List String,
        cfg.Includes = nameSet includes → cfg.Excludes = nameSet excludes →
        (genData info cfg).Fields.map FieldData.SourceName
          = (info.Fields.filter (fun f =>
              if includes ≠ [] then decide (f.Name ∈ includes)
              else decide (f.Name ∉ excludes))).map FieldInfo.Name) := by
  have key : ∀ c : Config, (genData info c).Fields.map FieldData.SourceName
      = (info.Fields.filter (fun f => !skipField c f)).map FieldInfo.Name := by
    intro c
    simp [genData, genFields, foldl_fieldStep, List.map_map, Function.comp_def]
  refine ⟨?_, ?_, ?_⟩
  · rw [key]
    congr 1
    apply List.filter_congr
    intro f _
    simp only [skipField]
    split_ifs <;> simp
  · intro excludes hlen
    have hstep : fieldStep { cfg with Excludes := excludes } = fieldStep cfg := by
      funext acc f
      simp [fieldStep, skipField, dtoFieldName, hlen]
    simp [genData, genFields, hstep]
  · intro includes excludes hinc hexc
    rw [key]
    congr 1
    apply List.filter_congr
    intro f _
    simp only [skipField, hinc, hexc, nameSet_len_pos, nameSet_index]
    split_ifs <;> simp

/-- The two examples of C1: fields `A`, `B`, `C` with `Includes = {A}` and
`Excludes = {B}` give `A`; the declaration order `ID`, `Username`, `Email` with
`Includes` made from `Email`, `ID` gives `ID`, `Email`. -/
theorem generate_selects_fields_witness :
    (genData (infoOf [strField "A", strField "B", strField "C"] [])
        { emptyConfig with Includes := nameSet ["A"], Excludes := nameSet ["B"] }).Fields.map
          FieldData.SourceName = ["A"]
    ∧ (genData (infoOf [strField "ID", strField "Username", strField "Email"] [])
        { emptyConfig with Includes := nameSet ["Email", "ID"] }).Fields.map
          FieldData.SourceName = ["ID", "Email"] := by
  constructor
  · rw [(generate_selects_fields _ _).2.2 ["A"] ["B"] rfl rfl]
    decide
  · rw [(generate_selects_fields _ _).2.2 ["Email", "ID"] [] rfl rfl]
    decide

/-- C2. Every kept field gives one record whose `Name` is the entry of
`Renames` for the field name when there is one and the field name otherwise,
whose `SourceName` is the field name, and whose type and tags are those of the
field; deleting from `Renames` a key that is the name of no field leaves the
records unchanged. -/
theorem generate_renames_fields (info : StructInfo) (cfg : Config) :
    ((genData info cfg).Fields
      = (info.Fields.filter (fun f => !skipField cfg f)).map
          (fun f => { Name := (GoMap.get? cfg.Renames f.Name).getD f.Name,
                      SourceName := f.Name, Type_ := f.Type_, Tags := f.Tags }))
    ∧ (∀ k : String, (∀ f ∈ info.Fields, f.Name ≠ k) →
        (genData info { cfg with Renames := GoMap.delete cfg.Renames k }).Fields
          = (genData info cfg).Fields) := by
  have hname : ∀ (c : Config) (f : FieldInfo),
      dtoFieldName c f = (GoMap.get? c.Renames f.Name).getD f.Name := by
    intro c f
    simp only [dtoFieldName]
    cases GoMap.get? c.Renames f.Name <;> rfl
  constructor
  · simp [genData, genFields, foldl_fieldStep, hname]
  · intro k hk
    simp only [genData, genFields, foldl_fieldStep, List.nil_append]
    have hskip : ∀ f, skipField { cfg with Renames := GoMap.delete cfg.Renames k } f
        = skipField cfg f := fun f => rfl
    simp only [hskip]
    apply List.map_congr_left
    intro f hf
    have hfk : f.Name ≠ k := hk f (List.mem_of_mem_filter hf)
    simp [hname, GoMap.get?_delete, hfk]

/-- The example of C2: renaming `Username` to `Login` gives the record `Login`
read from `Username`, and a key `Nick` that names no field changes nothing. -/
theorem generate_renames_fields_witness :
    (genData (infoOf [strField "ID", strField "Username"] [])
        { emptyConfig with Renames := [("Username", "Login"), ("Nick", "N")] }).Fields
      = [{ Name := "ID", SourceName := "ID", Type_ := "string", Tags := "" },
         { Name := "Login", SourceName := "Username", Type_ := "string", Tags := "" }]
    ∧ (genData (infoOf [strField "ID", strField "Username"] [])
        { emptyConfig with Renames := [("Username", "Login")] }).Fields
      = (genData (infoOf [strField "ID", strField "Username"] [])
        { emptyConfig with Renames := [("Username", "Login"), ("Nick", "N")] }).Fields := by
  constructor
  · rw [(generate_renames_fields _ _).1]
    decide
  · exact (generate_renames_fields (infoOf [strField "ID", strField "Username"] [])
      { emptyConfig with Renames := [("Username", "Login"), ("Nick", "N")] }).2 "Nick"
      (by decide)

/-! ## Import merge -/

theorem foldl_importStep (excluded : GoMap Unit) (xs acc : List String) :
    xs.foldl (importStep excluded) acc
      = acc ++ xs.filter (fun p => (GoMap.get? excluded p).isNone) := by
  induction xs generalizing acc with
  | nil => simp
  | cons x rest ih =>
    simp only [List.foldl_cons, ih, importStep]
    cases h : GoMap.get? excluded x <;> simp [h]

theorem excludedImports_get? (cfg : Config) (p : String) :
    (GoMap.get? (excludedImports cfg) p).isNone = decide (p ∉ cfg.ExcludeImports) := by
  simp only [excludedImports, GoMap.get?_foldl_set]
  split_ifs with h <;> simp [GoMap.get?, h]

/-- The import list of the template context, in closed form. -/
theorem genImports_eq (info : StructInfo) (cfg : Config) :
    genImports info cfg
      = cfg.Imports ++ info.Imports.filter (fun p => decide (p ∉ cfg.ExcludeImports)) := by
  simp only [genImports, foldl_importStep]
  congr 1
  apply List.filter_congr
  intro p _
  exact excludedImports_get? cfg p

/-- C3, as the code has it. The import list that `Generate` passes to the
template is `cfg.Imports` in declared order followed by the elements of
`info.Imports`, in their order, that are not in `cfg.ExcludeImports`. Nothing
is removed from it after that: it is free of duplicates exactly when
`cfg.Imports` is, the discovered imports that are kept are, and no kept
discovered import is also configured. -/
theorem generate_merges_imports (info : StructInfo) (cfg : Config) :
    ((genData info cfg).Imports
      = cfg.Imports ++ info.Imports.filter (fun p => decide (p ∉ cfg.ExcludeImports)))
    ∧ ((genData info cfg).Imports.Nodup ↔
        (cfg.Imports.Nodup
          ∧ (info.Imports.filter (fun p => decide (p ∉ cfg.ExcludeImports))).Nodup
          ∧ ∀ p ∈ info.Imports, p ∉ cfg.ExcludeImports → p ∉ cfg.Imports)) := by
  have h : (genData info cfg).Imports
      = cfg.Imports ++ info.Imports.filter (fun p => decide (p ∉ cfg.ExcludeImports)) :=
    genImports_eq info cfg
  refine ⟨h, ?_⟩
  rw [h, List.nodup_append]
  constructor
  · rintro ⟨h1, h2, h3⟩
    refine ⟨h1, h2, ?_⟩
    intro p hp hex hc
    exact h3 hc (List.mem_filter.mpr ⟨hp, by simpa using hex⟩)
  · rintro ⟨h1, h2, h3⟩
    refine ⟨h1, h2, ?_⟩
    intro p hc hf
    have hf2 := List.mem_filter.mp hf
    exact h3 p hf2.1 (by simpa using hf2.2) hc

/-- C3 fails as stated: an import that is both configured and discovered is
passed to the template twice, and so is an import repeated in `cfg.Imports`. -/
theorem generate_imports_not_deduplicated :
    (genData (infoOf [] ["time"]) { emptyConfig with Imports := ["time"] }).Imports
      = ["time", "time"]
    ∧ ¬ (genData (infoOf [] ["time"]) { emptyConfig with Imports := ["time"] }).Imports.Nodup
    ∧ ¬ (genData (infoOf [] []) { emptyConfig with Imports := ["fmt", "fmt"] }).Imports.Nodup := by
  decide

/-- C4, as the code has it. An import path of `cfg.ExcludeImports` is never
taken over from `info.Imports`: it is in the final import list exactly when it
is one of the configured imports `cfg.Imports`. -/
theorem generate_excludes_discovered_imports (info : StructInfo) (cfg : Config) (p : String)
    (hp : p ∈ cfg.ExcludeImports) :
    (p ∉ info.Imports.filter (fun q => decide (q ∉ cfg.ExcludeImports)))
    ∧ (p ∈ (genData info cfg).Imports ↔ p ∈ cfg.Imports) := by
  have h : (genData info cfg).Imports
      = cfg.Imports ++ info.Imports.filter (fun p => decide (p ∉ cfg.ExcludeImports)) :=
    genImports_eq info cfg
  have hnot : p ∉ info.Imports.filter (fun q => decide (q ∉ cfg.ExcludeImports)) := by
    intro hf
    have := (List.mem_filter.mp hf).2
    simp [hp] at this
  refine ⟨hnot, ?_⟩
  rw [h, List.mem_append]
  constructor
  · rintro (h1 | h2)
    · exact h1
    · exact absurd h2 hnot
  · exact Or.inl

/-- The example of C4: a discovered `time` that is excluded is not in the
final list, which holds the configured `fmt` only. -/
theorem generate_excludes_discovered_imports_witness :
    "time" ∈ ["time"]
    ∧ ("time" ∉ ["time", "net/url"].filter (fun q => decide (q ∉ ["time"])))
    ∧ ("time" ∈ (genData (infoOf [] ["time", "net/url"])
          { emptyConfig with Imports := ["fmt"], ExcludeImports := ["time"] }).Imports
        ↔ "time" ∈ ["fmt"]) :=
  ⟨by decide,
   generate_excludes_discovered_imports (infoOf [] ["time", "net/url"])
    { emptyConfig with Imports := ["fmt"], ExcludeImports := ["time"] } "time" (by decide)⟩

/-- C4 fails as stated: an import path that is both configured and excluded
is in the final import list. -/
theorem generate_configured_import_not_excluded :
    "time" ∈ ({ emptyConfig with Imports := ["time"], ExcludeImports := ["time"] } : Config).ExcludeImports
    ∧ "time" ∈ (genData (infoOf [] [])
        { emptyConfig with Imports := ["time"], ExcludeImports := ["time"] }).Imports := by
  decide

/-! ## The result of Generate -/

/-- `Generate` renders the template of `templateOf` on the context `genData`. -/
theorem Generate_ok (env : Env) (info : StructInfo) (cfg : Config) (tmpl : Template)
    (h : templateOf env cfg = .ok tmpl) :
    Generate env info cfg = render env tmpl (genData info cfg) := by
  unfold Generate
  unfold templateOf at h
  by_cases hp : cfg.TemplatePath = ""
  · simp only [hp, ne_eq, not_true_eq_false, ↓reduceIte] at h ⊢
    simp only [h]
  · simp only [hp, ne_eq, not_false_eq_true, ↓reduceIte] at h ⊢
    cases hr : env.ReadFile cfg.TemplatePath with
    | error e => simp [hr] at h
    | ok content =>
      simp only [hr] at h
      simp only [h]

theorem Generate_template_error (env : Env) (info : StructInfo) (cfg : Config) (err : String)
    (h : templateOf env cfg = .error err) :
    (Generate env info cfg).1 = none ∧ (Generate env info cfg).2.isSome = true := by
  unfold Generate
  unfold templateOf at h
  by_cases hp : cfg.TemplatePath = ""
  · simp only [hp, ne_eq, not_true_eq_false, ↓reduceIte] at h ⊢
    simp [h]
  · simp only [hp, ne_eq, not_false_eq_true, ↓reduceIte] at h ⊢
    cases hr : env.ReadFile cfg.TemplatePath with
    | error e => simp
    | ok content =>
      simp only [hr] at h
      simp [h]

/-- C10. The result of `Generate`, for every environment, struct and
configuration: when reading or parsing the custom template fails, or parsing
the bundled one, or executing the template, the result is no bytes and an
error; when execution gives `raw` and formatting fails, it is `raw` and an
error; when formatting gives `formatted`, it is `formatted` and no error. So
bytes come with an error exactly when formatting is what failed. -/
theorem generate_result_contract (env : Env) (info : StructInfo) (cfg : Config) :
    (∀ err, cfg.TemplatePath ≠ "" → env.ReadFile cfg.TemplatePath = .error err →
        (Generate env info cfg).1 = none ∧ (Generate env info cfg).2.isSome = true)
    ∧ (∀ content err, cfg.TemplatePath ≠ "" → env.ReadFile cfg.TemplatePath = .ok content →
        env.ParseCustom content = .error err →
        (Generate env info cfg).1 = none ∧ (Generate env info cfg).2.isSome = true)
    ∧ (∀ err, cfg.TemplatePath = "" → env.ParseDefault = .error err →
        (Generate env info cfg).1 = none ∧ (Generate env info cfg).2.isSome = true)
    ∧ (∀ tmpl err, templateOf env cfg = .ok tmpl →
        tmpl.Execute (genData info cfg) = .error err →
        (Generate env info cfg).1 = none ∧ (Generate env info cfg).2.isSome = true)
    ∧ (∀ tmpl raw err, templateOf env cfg = .ok tmpl →
        tmpl.Execute (genData info cfg) = .ok raw → env.Source raw = .error err →
        (Generate env info cfg).1 = some raw ∧ (Generate env info cfg).2.isSome = true)
    ∧ (∀ tmpl raw formatted, templateOf env cfg = .ok tmpl →
        tmpl.Execute (genData info cfg) = .ok raw → env.Source raw = .ok formatted →
        Generate env info cfg = (some formatted, none))
    ∧ (((Generate env info cfg).1.isSome = true ∧ (Generate env info cfg).2.isSome = true) ↔
        ∃ tmpl raw err, templateOf env cfg = .ok tmpl ∧
          tmpl.Execute (genData info cfg) = .ok raw ∧ env.Source raw = .error err) := by
  refine ⟨?_, ?_, ?_, ?_, ?_, ?_, ?_⟩
  · intro err hp hr
    exact Generate_template_error env info cfg err (by simp [templateOf, hp, hr])
  · intro content err hp hr hc
    exact Generate_template_error env info cfg err (by simp [templateOf, hp, hr, hc])
  · intro err hp hd
    exact Generate_template_error env info cfg err (by simp [templateOf, hp, hd])
  · intro tmpl err ht he
    rw [Generate_ok env info cfg tmpl ht]
    simp [render, he]
  · intro tmpl raw err ht he hf
    rw [Generate_ok env info cfg tmpl ht]
    simp [render, he, hf]
  · intro tmpl raw formatted ht he hf
    rw [Generate_ok env info cfg tmpl ht]
    simp [render, he, hf]
  · cases ht : templateOf env cfg with
    | error e =>
      have h := Generate_template_error env info cfg e ht
      simp [h.1]
    | ok tmpl =>
      rw [Generate_ok env info cfg tmpl ht]
      simp only [render]
      cases he : tmpl.Execute (genData info cfg) with
      | error e => simp [he]
      | ok raw =>
        cases hf : env.Source raw with
        | error e => simp [he, hf]
        | ok formatted => simp [he, hf]

/-- The example of C10: when the rendered text `x` does not format, the result
is that text together with an error. -/
theorem generate_result_contract_witness :
    (Generate lineEnv (infoOf [] []) emptyConfig).1 = some [120, 10]
    ∧ (Generate lineEnv (infoOf [] []) emptyConfig).2.isSome = true :=
  (generate_result_contract lineEnv (infoOf [] []) emptyConfig).2.2.2.2.1
    lineTemplate [120, 10] "expected package clause" rfl rfl rfl

/-! ## The member loop of Parse -/

theorem getLastD_map_mk (l : List (List Char)) :
    (l.map String.mk).getLastD "" = String.mk (l.getLastD []) := by
  rw [List.getLastD_eq_getLast?, List.getLastD_eq_getLast?, List.getLast?_map]
  cases l.getLast? <;> rfl

theorem foldl_names (g : String → FieldInfo) (names : List String) (acc : List FieldInfo) :
    names.foldl (fun fs name => fs ++ [g name]) acc = acc ++ names.map g := by
  induction names generalizing acc with
  | nil => simp
  | cons n rest ih => simp [ih]

theorem memberStep_Fields (st : LoopState) (field : Field) :
    (memberStep st field).Fields = st.Fields ++ memberFields field := by
  unfold memberStep memberFields
  cases hn : field.Names with
  | nil =>
    simp only [List.length_nil, ↓reduceIte, Split, afterLast, getLastD_map_mk]
  | cons n rest =>
    simp only [List.length_cons, Nat.add_one_ne_zero, ↓reduceIte]
    exact foldl_names _ _ _

theorem memberStep_importMap (st : LoopState) (field : Field) :
    (memberStep st field).importMap = collectImports field.typ st.importMap := by
  unfold memberStep
  split <;> rfl

theorem foldl_memberStep_Fields (fields : List Field) (st : LoopState) :
    (fields.foldl memberStep st).Fields = st.Fields ++ fields.flatMap memberFields := by
  induction fields generalizing st with
  | nil => simp
  | cons f rest ih =>
    simp only [List.foldl_cons, ih, memberStep_Fields, List.flatMap_cons, List.append_assoc]

theorem foldl_memberStep_importMap (fields : List Field) (st : LoopState) :
    (fields.foldl memberStep st).importMap
      = fields.foldl (fun m f => collectImports f.typ m) st.importMap := by
  induction fields generalizing st with
  | nil => simp
  | cons f rest ih =>
    simp only [List.foldl_cons, ih, memberStep_importMap]

theorem parseStruct_Fields (seed : Nat) (pkg : Package) (file : File) (structName : String)
    (fields : List Field) :
    (parseStruct seed pkg file structName fields).Fields = fields.flatMap memberFields := by
  simp [parseStruct, foldl_memberStep_Fields]

/-! ## The search of Parse -/

theorem parseSpecs_eq (seed : Nat) (pkg : Package) (file : File) (structName : String)
    (specs : List Spec) :
    parseSpecs seed pkg file structName specs
      = ((specs.flatMap (specEntries pkg file)).find?
          (fun x => decide (x.2.2.1 = structName))).map (resultAt seed structName) := by
  induction specs with
  | nil => rfl
  | cons spec rest ih =>
    cases spec with
    | Other => simpa [parseSpecs, specEntries] using ih
    | TypeSpec name ty =>
      by_cases hn : name = structName
      · cases ty <;> simp [parseSpecs, specEntries, resultAt, hn]
      · simpa [parseSpecs, specEntries, hn] using ih

theorem parseDecls_eq (seed : Nat) (pkg : Package) (file : File) (structName : String)
    (decls : List Decl) :
    parseDecls seed pkg file structName decls
      = ((decls.flatMap (declEntries pkg file)).find?
          (fun x => decide (x.2.2.1 = structName))).map (resultAt seed structName) := by
  induction decls with
  | nil => rfl
  | cons decl rest ih =>
    cases decl with
    | Other => simpa [parseDecls, declEntries] using ih
    | GenDecl tok specs =>
      by_cases ht : tok = "type"
      · simp only [parseDecls, ht, ne_eq, not_true_eq_false, ↓reduceIte, parseSpecs_eq, ih,
          List.flatMap_cons, declEntries, List.find?_append]
        cases (specs.flatMap (specEntries pkg file)).find?
          (fun x => decide (x.2.2.1 = structName)) <;> simp
      · simpa [parseDecls, declEntries, ht] using ih

theorem parseFiles_eq (seed : Nat) (pkg : Package) (structName : String) (files : List File) :
    parseFiles seed pkg structName files
      = ((files.flatMap (fileEntries pkg)).find?
          (fun x => decide (x.2.2.1 = structName))).map (resultAt seed structName) := by
  induction files with
  | nil => rfl
  | cons file rest ih =>
    simp only [parseFiles, parseDecls_eq, ih, List.flatMap_cons, fileEntries, List.find?_append]
    cases (file.Decls.flatMap (declEntries pkg file)).find?
      (fun x => decide (x.2.2.1 = structName)) <;> simp

theorem parsePkgs_eq (seed : Nat) (structName : String) (pkgs : List Package) :
    parsePkgs seed structName pkgs
      = (firstTypeSpec pkgs structName).map (resultAt seed structName) := by
  unfold firstTypeSpec typeSpecs
  induction pkgs with
  | nil => rfl
  | cons pkg rest ih =>
    simp only [parsePkgs, parseFiles_eq, ih, List.flatMap_cons, pkgEntries, List.find?_append]
    cases (pkg.Syntax.flatMap (fileEntries pkg)).find?
      (fun x => decide (x.2.2.1 = structName)) <;> simp

/-- `Parse` returns the description of the first type spec of the requested
name, when the packages load without errors and that spec is a struct type. -/
theorem Parse_of_first (seed : Nat) (pkgs : List Package) (pattern structName : String)
    (x : SpecEntry) (fields : List Field)
    (herr : PrintErrors pkgs = 0)
    (hfirst : firstTypeSpec pkgs structName = some x)
    (hstruct : x.2.2.2 = .StructType fields) :
    Parse seed (.ok pkgs) pattern structName
      = .ok (parseStruct seed x.1 x.2.1 structName fields) := by
  simp [Parse, herr, parsePkgs_eq, hfirst, resultAt, hstruct]

/-! ## The last segment of a written type -/

theorem splitChars_shape (sep : Char) (cs : List Char) :
    ∃ init l, splitChars sep cs = init ++ [l] ∧ sep ∉ l ∧
      ((init = [] ∧ cs = l) ∨ (init ≠ [] ∧ ∃ q, cs = q ++ sep :: l)) := by
  induction cs with
  | nil => exact ⟨[], [], rfl, by simp, Or.inl ⟨rfl, rfl⟩⟩
  | cons c rest ih =>
    obtain ⟨init, l, hsplit, hl, hcase⟩ := ih
    by_cases hc : c = sep
    · refine ⟨[] :: init, l, by simp [splitChars, hc, hsplit], hl, Or.inr ⟨by simp, ?_⟩⟩
      rcases hcase with ⟨_, h⟩ | ⟨_, q, h⟩
      · exact ⟨[], by simp [hc, h]⟩
      · exact ⟨c :: q, by simp [h]⟩
    · rcases hcase with ⟨hinit, h⟩ | ⟨hinit, q, h⟩
      · subst hinit
        refine ⟨[], c :: l, by simp [splitChars, hc, hsplit], ?_, Or.inl ⟨rfl, by simp [h]⟩⟩
        simp only [List.mem_cons, not_or]
        exact ⟨fun h0 => hc h0.symm, hl⟩
      · cases init with
        | nil => exact absurd rfl hinit
        | cons p ps =>
          exact ⟨(c :: p) :: ps, l, by simp [splitChars, hc, hsplit], hl,
            Or.inr ⟨by simp, c :: q, by simp [h]⟩⟩

theorem lastSegment_spec (sep : Char) (cs : List Char) :
    sep ∉ (splitChars sep cs).getLastD [] ∧
      (cs = (splitChars sep cs).getLastD [] ∨
        ∃ q, cs = q ++ sep :: (splitChars sep cs).getLastD []) := by
  obtain ⟨init, l, hsplit, hl, hcase⟩ := splitChars_shape sep cs
  have hlast : (splitChars sep cs).getLastD [] = l := by
    rw [hsplit, List.getLastD_concat]
  rw [hlast]
  refine ⟨hl, ?_⟩
  rcases hcase with ⟨_, h⟩ | ⟨_, q, h⟩
  · exact Or.inl h
  · exact Or.inr ⟨q, h⟩

theorem suffix_after_sep_unique (sep : Char) :
    ∀ (a b x y : List Char), sep ∉ a → sep ∉ b → a ++ sep :: x = b ++ sep :: y → a = b
  | [], [], _, _, _, _, _ => rfl
  | [], d :: b, x, y, _, hb, h => by
    simp only [List.nil_append, List.cons_append, List.cons.injEq] at h
    exact absurd (by simp [h.1]) hb
  | c :: a, [], x, y, ha, _, h => by
    simp only [List.nil_append, List.cons_append, List.cons.injEq] at h
    exact absurd (by simp [h.1]) ha
  | c :: a, d :: b, x, y, ha, hb, h => by
    simp only [List.cons_append, List.cons.injEq] at h
    simp only [List.mem_cons, not_or] at ha hb
    rw [h.1, suffix_after_sep_unique sep a b x y ha.2 hb.2 h.2]

theorem lastSegment_of_suffix (sep : Char) (q l : List Char) (hl : sep ∉ l) :
    (splitChars sep (q ++ sep :: l)).getLastD [] = l := by
  obtain ⟨hr, hcase⟩ := lastSegment_spec sep (q ++ sep :: l)
  generalize (splitChars sep (q ++ sep :: l)).getLastD [] = r at hr hcase
  rcases hcase with h | ⟨q2, h⟩
  · exact absurd (by rw [← h]; simp) hr
  · have h2 := congrArg List.reverse h
    simp only [List.reverse_append, List.reverse_cons, List.append_assoc,
      List.singleton_append] at h2
    have h3 := suffix_after_sep_unique sep l.reverse r.reverse _ _ (by simpa using hl)
      (by simpa using hr) h2
    exact (List.reverse_injective h3).symm

theorem lastSegment_of_no_sep (sep : Char) (l : List Char) (hl : sep ∉ l) :
    (splitChars sep l).getLastD [] = l := by
  obtain ⟨_, hcase⟩ := lastSegment_spec sep l
  rcases hcase with h | ⟨q, h⟩
  · exact h.symm
  · exact absurd (by rw [h]; simp) hl

/-! ## The fields that Parse emits -/

theorem afterLast_spec (s : String) :
    '.' ∉ (afterLast '.' s).toList ∧
      (s = afterLast '.' s ∨ ∃ q : String, s = q ++ "." ++ afterLast '.' s) := by
  obtain ⟨h1, h2⟩ := lastSegment_spec '.' s.toList
  refine ⟨h1, ?_⟩
  rcases h2 with h | ⟨q, h⟩
  · left
    exact String.ext h
  · right
    refine ⟨String.mk q, String.ext ?_⟩
    simpa [afterLast] using h

theorem afterLast_ident (t : String) (ht : '.' ∉ t.toList) : afterLast '.' t = t := by
  unfold afterLast
  rw [lastSegment_of_no_sep '.' t.toList ht]
  rfl

theorem afterLast_qualified (q t : String) (ht : '.' ∉ t.toList) :
    afterLast '.' (q ++ "." ++ t) = t := by
  unfold afterLast
  have h : (q ++ "." ++ t).toList = q.toList ++ '.' :: t.toList := by simp
  rw [h, lastSegment_of_suffix '.' q.toList t.toList ht]
  rfl

/-- C9. When the packages load without errors and the first type spec of the
requested name is a struct type whose members all have names, `Parse` returns
a description whose `Name` is the requested name and whose `Fields` are one
per declared name, members in order and the names of a member in order, each
with the written type of its member and the tag literal of its member as
written, or the empty string without a tag. -/
theorem parse_named_members (seed : Nat) (pkgs : List Package) (pattern structName : String)
    (x : SpecEntry) (fields : List Field)
    (herr : PrintErrors pkgs = 0)
    (hfirst : firstTypeSpec pkgs structName = some x)
    (hstruct : x.2.2.2 = .StructType fields)
    (hnamed : ∀ f ∈ fields, f.Names ≠ []) :
    ∃ info, Parse seed (.ok pkgs) pattern structName = .ok info
      ∧ info.Name = structName
      ∧ info.Fields = fields.flatMap fun f =>
          f.Names.map fun name =>
            { Name := name, Type_ := ExprString f.Type_,
              Tags := match f.Tag with
                | some literal => literal
                | none => "" } := by
  refine ⟨_, Parse_of_first seed pkgs pattern structName x fields herr hfirst hstruct, rfl, ?_⟩
  rw [parseStruct_Fields]
  clear hstruct
  induction fields with
  | nil => rfl
  | cons f rest ih =>
    have hf : f.Names ≠ [] := hnamed f (List.mem_cons_self _ _)
    have hrest := ih (fun g hg => hnamed g (List.mem_cons_of_mem _ hg))
    simp only [List.flatMap_cons, hrest]
    congr 1
    unfold memberFields
    cases hn : f.Names with
    | nil => exact absurd hn hf
    | cons n ns =>
      cases f.Tag <;> rfl

/-- The example of C9: the struct `User` of the test data gives `ID int`,
`Username string`, `Email string`, `IsActive bool` and `CreatedAt string`,
with the tags as written. -/
theorem parse_named_members_witness :
    ∃ info, Parse 0 (.ok [testdataPkg]) "../../testdata" "User" = .ok info
      ∧ info.Name = "User"
      ∧ info.Fields =
        [{ Name := "ID", Type_ := "int", Tags := "`json:\"id\"`" },
         { Name := "Username", Type_ := "string", Tags := "`json:\"username\"`" },
         { Name := "Email", Type_ := "string", Tags := "" },
         { Name := "IsActive", Type_ := "bool", Tags := "" },
         { Name := "CreatedAt", Type_ := "string", Tags := "" }] :=
  parse_named_members 0 [testdataPkg] "../../testdata" "User"
    (testdataPkg, { Dir := "testdata", Decls := _ }, "User", .StructType _) _
    (by decide) rfl rfl (by decide)

/-- C8, as the code has it. When the packages load without errors and the
first type spec of the requested name is a struct type, `Parse` emits for a
member `m` without names exactly one field description, between those of the
members before it and those of the members after it. Its `Type_` is the written
type `e` of the member, its `Tags` the tag literal, or the empty string without
a tag, and its `Name` is the text of `e` after its last dot, all of `e` when it
has no dot. That name is the type identifier `T` when `e` is an identifier `T`
or a qualified identifier `P.T`; for the other forms of `e` the code does not
reduce the text further. -/
theorem parse_embedded_member (seed : Nat) (pkgs : List Package) (pattern structName : String)
    (x : SpecEntry) (before after : List Field) (m : Field)
    (herr : PrintErrors pkgs = 0)
    (hfirst : firstTypeSpec pkgs structName = some x)
    (hstruct : x.2.2.2 = .StructType (before ++ m :: after))
    (hemb : m.Names = []) :
    ∃ info name, Parse seed (.ok pkgs) pattern structName = .ok info
      ∧ info.Fields = before.flatMap memberFields
          ++ [{ Name := name, Type_ := ExprString m.Type_,
                Tags := match m.Tag with
                  | some literal => literal
                  | none => "" }]
          ++ after.flatMap memberFields
      ∧ '.' ∉ name.toList
      ∧ (ExprString m.Type_ = name ∨ ∃ q : String, ExprString m.Type_ = q ++ "." ++ name)
      ∧ (∀ T : String, m.Type_ = .Ident T → '.' ∉ T.toList → name = T)
      ∧ (∀ P T : String, m.Type_ = .SelectorExpr (.Ident P) T → '.' ∉ T.toList → name = T) := by
  refine ⟨_, afterLast '.' (ExprString m.Type_),
    Parse_of_first seed pkgs pattern structName x _ herr hfirst hstruct, ?_,
    (afterLast_spec _).1, (afterLast_spec _).2, ?_, ?_⟩
  · rw [parseStruct_Fields]
    simp only [List.flatMap_append, List.flatMap_cons, List.append_assoc]
    congr 1
    simp only [List.singleton_append]
    rw [← List.singleton_append]
    congr 1
    unfold memberFields
    rw [hemb]
    cases m.Tag <;> rfl
  · intro T hT hdot
    rw [hT]
    exact afterLast_ident T hdot
  · intro P T hPT hdot
    rw [hPT]
    exact afterLast_qualified P T hdot

/-- The example of C8: the embedded member `pkg.Base` gives the one field
description of name `Base` and type `pkg.Base`. -/
theorem parse_embedded_member_witness :
    ∃ info name, Parse 0 (.ok [structPkg "example.com/app" "app" "User" [embeddedQualified]])
        "." "User" = .ok info
      ∧ info.Fields = [{ Name := name, Type_ := "pkg.Base", Tags := "" }]
      ∧ name = "Base" := by
  obtain ⟨info, name, h1, h2, _, _, _, h6⟩ :=
    parse_embedded_member 0 [structPkg "example.com/app" "app" "User" [embeddedQualified]]
      "." "User"
      (structPkg "example.com/app" "app" "User" [embeddedQualified],
        { Dir := "app", Decls := _ }, "User", .StructType _)
      [] [] embeddedQualified (by decide) rfl rfl rfl
  exact ⟨info, name, h1, h2, h6 "pkg" "Base" rfl (by decide)⟩

/-- C8 fails as stated: for the embedded member `*Base` the name of the field
description that `Parse` emits is `*Base`, which is not the type identifier
`Base`. -/
theorem parse_embedded_pointer_name :
    (Parse 0 (.ok [structPkg "example.com/app" "app" "User" [embeddedPointer]])
        "." "User").toOption.map StructInfo.Fields
      = some [{ Name := "*Base", Type_ := "*Base", Tags := "" }] := by
  decide

/-! ## The imports that Parse discovers -/

mutual
theorem collectImports_get? : ∀ (t : GoType) (m : GoMap Bool) (k : String),
    (GoMap.get? (collectImports t m) k).isSome = true ↔
      ((GoMap.get? m k).isSome = true ∨ ∃ name, (some k, name) ∈ reachableNamed t)
  | .Named pkg name targs, m, k => by
    simp only [collectImports, reachableNamed, List.mem_cons, Prod.mk.injEq]
    rw [collectImportsArgs_get? targs]
    cases pkg with
    | none =>
      simp only [false_and, false_or, reduceCtorEq]
    | some path =>
      simp only [GoMap.get?_set, Option.some.injEq]
      by_cases hk : path = k
      · subst hk
        simp
      · have hk2 : ¬ k = path := fun h => hk h.symm
        simp [hk, hk2]
  | .Pointer elem, m, k => by
    simp only [collectImports, reachableNamed]
    exact collectImports_get? elem m k
  | .Slice elem, m, k => by
    simp only [collectImports, reachableNamed]
    exact collectImports_get? elem m k
  | .Array _ elem, m, k => by
    simp only [collectImports, reachableNamed]
    exact collectImports_get? elem m k
  | .Chan elem, m, k => by
    simp only [collectImports, reachableNamed]
    exact collectImports_get? elem m k
  | .Map key elem, m, k => by
    simp only [collectImports, reachableNamed, List.mem_append]
    rw [collectImports_get? elem, collectImports_get? key]
    constructor
    · rintro ((h | ⟨n, h⟩) | ⟨n, h⟩)
      · exact Or.inl h
      · exact Or.inr ⟨n, Or.inl h⟩
      · exact Or.inr ⟨n, Or.inr h⟩
    · rintro (h | ⟨n, h | h⟩)
      · exact Or.inl (Or.inl h)
      · exact Or.inl (Or.inr ⟨n, h⟩)
      · exact Or.inr ⟨n, h⟩
  | .Basic _, m, k => by
    simp [collectImports, reachableNamed]
  | .Other, m, k => by
    simp [collectImports, reachableNamed]
theorem collectImportsArgs_get? : ∀ (ts : List GoType) (m : GoMap Bool) (k : String),
    (GoMap.get? (collectImportsArgs ts m) k).isSome = true ↔
      ((GoMap.get? m k).isSome = true ∨ ∃ name, (some k, name) ∈ reachableNamedArgs ts)
  | [], m, k => by
    simp [collectImportsArgs, reachableNamedArgs]
  | t :: ts, m, k => by
    simp only [collectImportsArgs, reachableNamedArgs, List.mem_append]
    rw [collectImportsArgs_get? ts, collectImports_get? t]
    constructor
    · rintro ((h | ⟨n, h⟩) | ⟨n, h⟩)
      · exact Or.inl h
      · exact Or.inr ⟨n, Or.inl h⟩
      · exact Or.inr ⟨n, Or.inr h⟩
    · rintro (h | ⟨n, h | h⟩)
      · exact Or.inl (Or.inl h)
      · exact Or.inl (Or.inr ⟨n, h⟩)
      · exact Or.inr ⟨n, h⟩
end

theorem foldl_collectImports_get? (fields : List Field) (m : GoMap Bool) (k : String) :
    (GoMap.get? (fields.foldl (fun m f => collectImports f.typ m) m) k).isSome = true ↔
      ((GoMap.get? m k).isSome = true ∨
        ∃ f ∈ fields, ∃ name, (some k, name) ∈ reachableNamed f.typ) := by
  induction fields generalizing m with
  | nil => simp
  | cons f rest ih =>
    simp only [List.foldl_cons, ih, collectImports_get?, List.mem_cons, exists_eq_or_imp]
    tauto

/-- Whatever the runtime chooses, a `range` over a map yields each key once. -/
theorem rangeKeys_perm {β : Type} (seed : Nat) (m : GoMap β) :
    (rangeKeys seed m).Perm (GoMap.keys m) := by
  unfold rangeKeys
  have hmem : GoMap.keys m ∈ List.permutations' (GoMap.keys m) :=
    List.mem_permutations'.mpr (List.Perm.refl _)
  have hpos : 0 < (List.permutations' (GoMap.keys m)).length := List.length_pos_of_mem hmem
  have hlt : seed % (List.permutations' (GoMap.keys m)).length
      < (List.permutations' (GoMap.keys m)).length := Nat.mod_lt _ hpos
  simp only [List.getD_eq_getElem _ _ hlt]
  exact List.mem_permutations'.mp (List.getElem_mem _)

theorem foldl_append_singleton (xs acc : List String) :
    xs.foldl (fun imports imp => imports ++ [imp]) acc = acc ++ xs := by
  induction xs generalizing acc with
  | nil => simp
  | cons x rest ih => simp [ih]

theorem parseStruct_Imports_perm (seed : Nat) (pkg : Package) (file : File)
    (structName : String) (fields : List Field) :
    (parseStruct seed pkg file structName fields).Imports.Perm
      (GoMap.keys (fields.foldl (fun m f => collectImports f.typ m) [])) := by
  simp only [parseStruct, foldl_append_singleton, List.nil_append, foldl_memberStep_importMap]
  exact rangeKeys_perm seed _

theorem mem_parseStruct_Imports (seed : Nat) (pkg : Package) (file : File)
    (structName : String) (fields : List Field) (p : String) :
    p ∈ (parseStruct seed pkg file structName fields).Imports ↔
      ∃ f ∈ fields, ∃ name, (some p, name) ∈ reachableNamed f.typ := by
  rw [(parseStruct_Imports_perm seed pkg file structName fields).mem_iff,
    ← GoMap.get?_isSome_iff, foldl_collectImports_get?]
  simp [GoMap.get?]

/-- C6, as the code has it. When the packages load without errors and the
first type spec of the requested name is a struct type, the `Imports` of the
description that `Parse` returns are free of duplicates, and a path is among
them exactly when some member has a type from which a named type declared in
the package of that path is reached by unwrapping pointer, slice, array, map
(key and value) and channel types and type arguments. A named type without a
package, and a predeclared type, contribute no path; the package being parsed
is treated as any other package. -/
theorem parse_discovers_imports (seed : Nat) (pkgs : List Package)
    (pattern structName : String) (x : SpecEntry) (fields : List Field)
    (herr : PrintErrors pkgs = 0)
    (hfirst : firstTypeSpec pkgs structName = some x)
    (hstruct : x.2.2.2 = .StructType fields) :
    ∃ info, Parse seed (.ok pkgs) pattern structName = .ok info
      ∧ info.Imports.Nodup
      ∧ ∀ p : String, p ∈ info.Imports ↔
          ∃ f ∈ fields, ∃ name, (some p, name) ∈ reachableNamed f.typ := by
  refine ⟨_, Parse_of_first seed pkgs pattern structName x fields herr hfirst hstruct, ?_, ?_⟩
  · exact (parseStruct_Imports_perm seed x.1 x.2.1 structName fields).nodup_iff.mpr
      (GoMap.keys_nodup _)
  · intro p
    exact mem_parseStruct_Imports seed x.1 x.2.1 structName fields p

/-- The example of C6: of `At time.Time`, `Link url.URL` and `Err error`, the
imports are `time` and `net/url` in some order, each once. -/
theorem parse_discovers_imports_witness :
    ∃ info, Parse 0 (.ok [eventPkg]) "." "Event" = .ok info
      ∧ info.Imports.Nodup
      ∧ ("time" ∈ info.Imports ∧ "net/url" ∈ info.Imports ∧ info.Imports.length = 2) := by
  obtain ⟨info, h1, h2, _⟩ :=
    parse_discovers_imports 0 [eventPkg] "." "Event"
      (eventPkg, { Dir := "app", Decls := _ }, "Event", .StructType _) _
      (by decide) rfl rfl
  refine ⟨info, h1, h2, ?_⟩
  have h4 : info = parseStruct 0 eventPkg { Dir := "app", Decls := _ } "Event" _ :=
    (Except.ok.inj (h1.symm.trans rfl))
  subst h4
  decide

/-- C6 fails as stated: a member whose type is a named type of the package
being parsed makes the path of that package an element of `Imports`. -/
theorem parse_imports_own_package :
    (Parse 0 (.ok [localTypePkg]) "." "User").toOption.map StructInfo.Imports
      = some [localTypePkg.PkgPath] := by
  decide

/-! ## Parse, then Generate -/

/-- C5, as the code has it. For `Parse` followed by `Generate` with no
configured imports: when the packages load without errors and the first type
spec of the requested name is a struct type, a path is in the final list of
imports exactly when it is not in `cfg.ExcludeImports` and it is the path of
the declaring package of a named type reached from the type of some member of
the struct, kept or not, by unwrapping pointer, slice, array, map (key and
value) and channel types and type arguments. The selection of the fields plays
no part: `Includes` and `Excludes` do not occur in the condition, and a path so
reached from any member, kept or not, is in the list unless
`cfg.ExcludeImports` names it. -/
theorem pipeline_imports_of_all_members (seed : Nat) (pkgs : List Package) (src : String)
    (cfg : Config) (x : SpecEntry) (fields : List Field)
    (herr : PrintErrors pkgs = 0)
    (hfirst : firstTypeSpec pkgs cfg.StructName = some x)
    (hstruct : x.2.2.2 = .StructType fields)
    (hcfg : cfg.Imports = []) :
    ∃ data, runGeneratorData seed (.ok pkgs) src cfg = .ok data
      ∧ (∀ p : String, p ∈ data.Imports ↔
          (p ∉ cfg.ExcludeImports ∧
            ∃ f ∈ fields, ∃ name, (some p, name) ∈ reachableNamed f.typ))
      ∧ (∀ f ∈ fields, ∀ (p name : String), (some p, name) ∈ reachableNamed f.typ →
          p ∉ cfg.ExcludeImports → p ∈ data.Imports) := by
  have hparse := Parse_of_first seed pkgs src cfg.StructName x fields herr hfirst hstruct
  have hrun : runGeneratorData seed (.ok pkgs) src cfg
      = .ok (genData (parseStruct seed x.1 x.2.1 cfg.StructName fields)
          { cfg with PackageName :=
              (parseStruct seed x.1 x.2.1 cfg.StructName fields).PackageName }) := by
    simp only [runGeneratorData, hparse]
  have h : (genData (parseStruct seed x.1 x.2.1 cfg.StructName fields)
      { cfg with PackageName :=
          (parseStruct seed x.1 x.2.1 cfg.StructName fields).PackageName }).Imports
      = [] ++ (parseStruct seed x.1 x.2.1 cfg.StructName fields).Imports.filter
          (fun q => decide (q ∉ cfg.ExcludeImports)) := by
    rw [← hcfg]
    exact genImports_eq _ _
  have hiff : ∀ p : String,
      p ∈ (genData (parseStruct seed x.1 x.2.1 cfg.StructName fields)
        { cfg with PackageName :=
            (parseStruct seed x.1 x.2.1 cfg.StructName fields).PackageName }).Imports ↔
      (p ∉ cfg.ExcludeImports ∧
        ∃ f ∈ fields, ∃ name, (some p, name) ∈ reachableNamed f.typ) := by
    intro p
    rw [h, List.nil_append, List.mem_filter, mem_parseStruct_Imports]
    simp only [decide_eq_true_eq]
    tauto
  refine ⟨_, hrun, hiff, ?_⟩
  intro f hf p name hreach hex
  exact (hiff p).mpr ⟨hex, f, hf, name, hreach⟩

/-- The example of C5: for `User` with `Password secret.Hash` and `Excludes`
holding `Password`, the package of `secret.Hash`, reached from the type of the
member `Password`, is in the final list of imports. -/
theorem pipeline_imports_of_all_members_witness :
    ∃ data, runGeneratorData 0 (.ok [secretUserPkg]) "."
        { emptyConfig with StructName := "User", Excludes := nameSet ["Password"] } = .ok data
      ∧ "example.com/secret" ∈ data.Imports := by
  obtain ⟨data, h1, _, h3⟩ :=
    pipeline_imports_of_all_members 0 [secretUserPkg] "."
      { emptyConfig with StructName := "User", Excludes := nameSet ["Password"] }
      (secretUserPkg, { Dir := "app", Decls := _ }, "User", .StructType _) _
      (by decide) rfl rfl rfl
  exact ⟨data, h1,
    h3 (namedField "Password" "secret" "Hash" "example.com/secret") (by simp)
      "example.com/secret" "Hash" (by simp [namedField, reachableNamed]) (by simp [emptyConfig])⟩

/-- C5 fails as stated: for `User` with `ID int`, `Username string` and
`Password secret.Hash` and `Excludes` holding `Password`, the kept fields are
`ID` and `Username`, whose types reach no named type, and the final import
list holds the package of the type of `Password`. -/
theorem pipeline_keeps_import_of_excluded_field :
    (runGeneratorData 0 (.ok [secretUserPkg]) "."
        { emptyConfig with StructName := "User", Excludes := nameSet ["Password"] }).toOption.map
      (fun data => (data.Fields.map FieldData.SourceName, data.Imports))
      = some (["ID", "Username"], ["example.com/secret"])
    ∧ (∀ f ∈ [basicField "ID" "int" none, basicField "Username" "string" none],
        reachableNamed f.typ = []) := by
  decide

/-- Every order of the keys is one that a `range` over the map can yield. -/
theorem rangeKeys_any_order {β : Type} (m : GoMap β) (order : List String)
    (h : order.Perm (GoMap.keys m)) : ∃ seed, rangeKeys seed m = order := by
  have hmem : order ∈ List.permutations' (GoMap.keys m) := List.mem_permutations'.mpr h
  obtain ⟨i, hi, hget⟩ := List.getElem_of_mem hmem
  refine ⟨i, ?_⟩
  unfold rangeKeys
  simp only [Nat.mod_eq_of_lt hi, List.getD_eq_getElem _ _ hi, hget]

/-- C7 does not hold of the code. For the struct `Event` with `At time.Time`
and `Link url.URL`, the order of `Imports` is the order in which the `range`
over `importMap` yields the keys: one iteration order gives `time`, `net/url`,
another gives `net/url`, `time`, and the import lists passed to the template
differ accordingly. -/
theorem parse_import_order_not_fixed :
    (Parse 0 (.ok [eventPkg]) "." "Event").toOption.map StructInfo.Imports
      = some ["time", "net/url"]
    ∧ (Parse 1 (.ok [eventPkg]) "." "Event").toOption.map StructInfo.Imports
      = some ["net/url", "time"]
    ∧ (runGeneratorData 0 (.ok [eventPkg]) "."
          { emptyConfig with StructName := "Event" }).toOption.map templateData.Imports
      ≠ (runGeneratorData 1 (.ok [eventPkg]) "."
          { emptyConfig with StructName := "Event" }).toOption.map templateData.Imports := by
  decide

end Dtogen
